import Mathlib

/-!
Verification of the GPU-resident model scheduler of the MycosoftLabs website
repository.  Two source analogues are embedded:

* `Orchestrator` — `services/model-orchestrator/orchestrator.py`: the
  external-orchestrator-facing scaler (budget ledger over `active_models`,
  eviction of idle on-demand models, heartbeats, the auto-scale-down reaper).
* `Earth2Inference` — `services/earth2-inference/inference_server.py`: the
  in-process `ModelManager` (loaded models, LRU unloading by `last_used`)
  and the `InferenceEngine` run semaphore.

Python dictionaries are modelled as insertion-ordered association lists
(update keeps the position of an existing key, a new key is appended), so
dict iteration order in the source is reproduced faithfully.  Timestamps
are naturals (seconds); VRAM amounts are integers (every float that the
source manipulates on these paths is an exact small integer, and the one
division — seconds by 60, composed with Python `int()` truncation — is
exact integer division, so integer arithmetic reproduces the float
results exactly).  The Kubernetes scale API
(`scale_deployment`) is an oracle `String → Bool` giving the success of
each call, and every call is recorded in an explicit trace.
-/

/-- Lexicographic comparison of character lists by code point, the order
Python uses on strings. -/
def lexLe : List Char → List Char → Bool
  | [], _ => true
  | _ :: _, [] => false
  | a :: as, b :: bs =>
    if a.val < b.val then true
    else if b.val < a.val then false
    else lexLe as bs

/-- Python string comparison `a <= b`: lexicographic by code point. -/
def strLe (a b : String) : Bool := lexLe a.data b.data

namespace Orchestrator

/-- Insertion-ordered dictionary lookup (first binding wins, as in a
Python dict whose keys are unique). -/
def dictLookup (k : String) : List (String × Nat) → Option Nat
  | [] => none
  | (k', v) :: rest => if k' = k then some v else dictLookup k rest

/-- Python dict assignment `d[k] = v`: update in place if the key exists,
append otherwise. -/
def dictInsert (k : String) (v : Nat) : List (String × Nat) → List (String × Nat)
  | [] => [(k, v)]
  | (k', v') :: rest =>
    if k' = k then (k, v) :: rest else (k', v') :: dictInsert k v rest

/-- Python `d.pop(k, None)`: remove the binding of `k` if present. -/
def dictErase (k : String) : List (String × Nat) → List (String × Nat)
  | [] => []
  | (k', v') :: rest => if k' = k then rest else (k', v') :: dictErase k rest

/-- `ModelTier` from `orchestrator.py`. -/
inductive ModelTier where
  | alwaysOn
  | onDemand
deriving DecidableEq, Repr

/-- `ModelConfig` from `orchestrator.py`. -/
structure ModelConfig where
  name : String
  port : Nat
  tier : ModelTier
  vramGb : Int
  startupTimeS : Nat := 60
deriving DecidableEq, Repr

/-- The static `MODELS` table of `orchestrator.py`. -/
def MODELS : List (String × ModelConfig) :=
  [ ("fcn3", ⟨"earth2-fcn3", 8300, .alwaysOn, 8, 60⟩),
    ("stormscope", ⟨"earth2-stormscope", 8301, .alwaysOn, 6, 60⟩),
    ("atlas", ⟨"earth2-atlas", 8302, .onDemand, 12, 60⟩),
    ("corrdiff", ⟨"earth2-corrdiff", 8303, .onDemand, 14, 60⟩),
    ("pangu", ⟨"earth2-pangu", 8304, .onDemand, 16, 60⟩),
    ("aurora", ⟨"earth2-aurora", 8305, .onDemand, 20, 60⟩),
    ("fuxi", ⟨"earth2-fuxi", 8306, .onDemand, 14, 60⟩),
    ("graphcast", ⟨"earth2-graphcast", 8307, .onDemand, 20, 60⟩),
    ("stormcast", ⟨"earth2-stormcast", 8308, .onDemand, 16, 60⟩),
    ("precipitation_afno", ⟨"earth2-precipitation-afno", 8309, .onDemand, 10, 60⟩),
    ("sfno", ⟨"earth2-sfno", 8311, .onDemand, 12, 60⟩),
    ("tc_tracker", ⟨"earth2-tc-tracker", 8312, .onDemand, 8, 60⟩) ]

/-- `model_id in MODELS` / `MODELS[model_id]`. -/
def findModel (mid : String) : Option ModelConfig :=
  match MODELS.find? (fun p => p.1 = mid) with
  | some p => some p.2
  | none => none

/-- The RTX 5090 VRAM limit `MAX_VRAM_GB = 32`. -/
def MAX_VRAM_GB : Int := 32

/-- The VRAM cost a model id contributes to `get_available_vram`
(zero for ids missing from the `MODELS` table, which the source skips). -/
def modelCost (mid : String) : Int :=
  match findModel mid with
  | some c => c.vramGb
  | none => 0

/-- The mutable `ModelState` of `orchestrator.py` (`pending_models` is
written nowhere in the scheduler paths and is omitted). -/
structure ModelState where
  active_models : List (String × Nat)
  last_activity : List (String × Nat)
deriving DecidableEq, Repr

/-- The boot state: both dicts empty. -/
def initState : ModelState := ⟨[], []⟩

/-- Total VRAM charged to the ledger: the sum of `vram_gb` over the ids of
`active_models` that appear in `MODELS`, exactly as `get_available_vram`
accumulates `used_vram`. -/
def usedVram (st : ModelState) : Int :=
  (st.active_models.map (fun p => modelCost p.1)).sum

/-- `get_available_vram` from `orchestrator.py`. -/
def get_available_vram (st : ModelState) : Int :=
  MAX_VRAM_GB - usedVram st

/-- `can_schedule_model` from `orchestrator.py`. -/
def can_schedule_model (mid : String) (st : ModelState) : Bool :=
  match findModel mid with
  | none => false
  | some c => decide (c.vramGb ≤ get_available_vram st)

/-- `scale_down_model` from `orchestrator.py`: refuse unknown ids and
always-on models, otherwise ask the gateway to scale the deployment to 0
and, on success, drop the model from `active_models` (its `last_activity`
entry is kept).  Returns (success, new state, gateway calls). -/
def scale_down_model (gw : String → Bool) (mid : String) (st : ModelState) :
    Bool × ModelState × List (String × Nat) :=
  match findModel mid with
  | none => (false, st, [])
  | some c =>
    if c.tier = ModelTier.alwaysOn then (false, st, [])
    else if gw c.name then
      (true, { st with active_models := dictErase mid st.active_models }, [(c.name, 0)])
    else (false, st, [(c.name, 0)])

/-- Stable insertion of a `(model_id, last_active)` pair into a list sorted
ascending by the timestamp: the new element goes before the first element
whose timestamp is not smaller.  Used to model the stable Python
`list.sort(key=lambda x: x[1])`. -/
def insertByTime (x : String × Nat) : List (String × Nat) → List (String × Nat)
  | [] => [x]
  | y :: ys => if x.2 ≤ y.2 then x :: y :: ys else y :: insertByTime x ys

/-- Stable sort ascending by timestamp (Python `sort` with the
`last_active` key is stable, so ties keep dict insertion order). -/
def sortByTime : List (String × Nat) → List (String × Nat)
  | [] => []
  | x :: xs => insertByTime x (sortByTime xs)

/-- The idle threshold of `evict_idle_models`: `timedelta(minutes=10)`,
in seconds. -/
def idleThresholdS : Nat := 600

/-- The candidate filter of `evict_idle_models`: iterate the
`last_activity` dict and keep ids that are currently active, whose
`MODELS` tier is on-demand (a missing id defaults to a throwaway
always-on config and is dropped), and whose idle time strictly exceeds
the 10-minute threshold. -/
def evictCandidates (now : Nat) (st : ModelState) : List (String × Nat) :=
  st.last_activity.filter (fun p =>
    (dictLookup p.1 st.active_models).isSome
    && (match findModel p.1 with
        | some c => decide (c.tier = ModelTier.onDemand)
        | none => false)
    && decide (idleThresholdS < now - p.2))

/-- The eviction loop of `evict_idle_models`: walk the sorted candidates,
break as soon as the freed amount reaches `required`, and otherwise scale
each candidate down, counting its `vram_gb` as freed only when the
gateway call succeeded.  Returns (freed, victims actually scaled down,
new state, gateway calls). -/
def evictLoop (gw : String → Bool) (required : Int) :
    List (String × Nat) → Int → ModelState →
    Int × List String × ModelState × List (String × Nat)
  | [], freed, st => (freed, [], st, [])
  | c :: cs, freed, st =>
    if required ≤ freed then (freed, [], st, [])
    else
      match scale_down_model gw c.1 st with
      | (true, st', calls) =>
        let r := evictLoop gw required cs (freed + modelCost c.1) st'
        (r.1, c.1 :: r.2.1, r.2.2.1, calls ++ r.2.2.2)
      | (false, st', calls) =>
        let r := evictLoop gw required cs freed st'
        (r.1, r.2.1, r.2.2.1, calls ++ r.2.2.2)

/-- `evict_idle_models` from `orchestrator.py`.  Returns the new state,
the list of victims that were scaled down, and the gateway calls made. -/
def evict_idle_models (gw : String → Bool) (requiredVram : Int) (now : Nat)
    (st : ModelState) : ModelState × List String × List (String × Nat) :=
  let r := evictLoop gw requiredVram (sortByTime (evictCandidates now st)) 0 st
  (r.2.2.1, r.2.1, r.2.2.2)

/-- Immediate outcome of `scale_up_model`: HTTP 404, HTTP 503, a `False`
return (gateway refused the scale-up), or a `True` return. -/
inductive ScaleUpOutcome where
  | notFound
  | insufficientVram
  | gatewayFailed
  | success
deriving DecidableEq, Repr

/-- Result of `scale_up_model`: outcome, final state, gateway calls. -/
structure ScaleUpRes where
  outcome : ScaleUpOutcome
  state : ModelState
  gwCalls : List (String × Nat)
deriving DecidableEq, Repr

/-- `scale_up_model` from `orchestrator.py`: unknown id fails with 404;
if the model does not fit, evict idle models with `required` equal to the
model's full `vram_gb` and re-check; if it still does not fit fail with
503 (the evictions stay committed); otherwise ask the gateway to scale
the deployment to 1 and on success record the model in `active_models`
and `last_activity` at the current time. -/
def scale_up_model (gw : String → Bool) (mid : String) (now : Nat)
    (st : ModelState) : ScaleUpRes :=
  match findModel mid with
  | none => ⟨.notFound, st, []⟩
  | some c =>
    let afterEvict :=
      if can_schedule_model mid st then (st, ([] : List (String × Nat)))
      else
        let r := evict_idle_models gw c.vramGb now st
        (r.1, r.2.2)
    let st₁ := afterEvict.1
    if can_schedule_model mid st₁ then
      if gw c.name then
        ⟨.success,
         { active_models := dictInsert mid now st₁.active_models,
           last_activity := dictInsert mid now st₁.last_activity },
         afterEvict.2 ++ [(c.name, 1)]⟩
      else ⟨.gatewayFailed, st₁, afterEvict.2 ++ [(c.name, 1)]⟩
    else ⟨.insufficientVram, st₁, afterEvict.2⟩

/-- The `/heartbeat/{model_id}` endpoint: unconditionally store the
current time as the model's `last_activity`, for any id whatsoever. -/
def model_heartbeat (mid : String) (now : Nat) (st : ModelState) : ModelState :=
  { st with last_activity := dictInsert mid now st.last_activity }

/-- What one firing of `auto_scale_down` does after its sleep. -/
inductive ReaperAction where
  | rearm (timeoutMinutes : Nat)
  | scaledDown
  | noop
deriving DecidableEq, Repr

/-- One firing of `auto_scale_down(model_id, timeout_minutes)` at time
`now`: read `last_activity`; if present and the elapsed time is below the
firing's own `timeout_minutes` parameter, reschedule with
`int(timeout_minutes - elapsed)`; otherwise scale the model down.  The
source computes `elapsed = diff_seconds / 60` as a float and truncates
the remainder with `int()`; over integer seconds `elapsed <
timeout_minutes` is `diff < 60 * timeout_minutes`, and the truncated
remainder is `(60 * timeout_minutes - diff) / 60` in integer division
(the remainder is positive inside the branch, so truncation is the
floor). -/
def auto_scale_down_fire (gw : String → Bool) (mid : String)
    (timeoutMinutes : Nat) (now : Nat) (st : ModelState) :
    ReaperAction × ModelState × List (String × Nat) :=
  match dictLookup mid st.last_activity with
  | some last =>
    let diff : Int := (now : Int) - (last : Int)
    if diff < 60 * (timeoutMinutes : Int) then
      (.rearm ((60 * (timeoutMinutes : Int) - diff).toNat / 60), st, [])
    else
      let r := scale_down_model gw mid st
      (if r.1 then .scaledDown else .noop, r.2.1, r.2.2)
  | none =>
    let r := scale_down_model gw mid st
    (if r.1 then .scaledDown else .noop, r.2.1, r.2.2)

/-- The operations that mutate the scheduler state, each carrying its own
gateway oracle and wall-clock time. -/
inductive Event where
  | scaleUp (gw : String → Bool) (mid : String) (now : Nat)
  | scaleDown (gw : String → Bool) (mid : String)
  | heartbeat (mid : String) (now : Nat)
  | evict (gw : String → Bool) (required : Int) (now : Nat)
  | reaperFire (gw : String → Bool) (mid : String) (timeoutMinutes : Nat) (now : Nat)

/-- State transition of one event. -/
def applyEvent (st : ModelState) : Event → ModelState
  | .scaleUp gw mid now => (scale_up_model gw mid now st).state
  | .scaleDown gw mid => (scale_down_model gw mid st).2.1
  | .heartbeat mid now => model_heartbeat mid now st
  | .evict gw required now => (evict_idle_models gw required now st).1
  | .reaperFire gw mid t now => (auto_scale_down_fire gw mid t now st).2.1

/-- The state reached from boot by a sequence of events. -/
def runEvents (es : List Event) : ModelState :=
  es.foldl applyEvent initState

/-- The ids currently recorded active. -/
def activeKeys (st : ModelState) : List String :=
  st.active_models.map Prod.fst

/-- An always-succeeding gateway oracle. -/
def gwTrue : String → Bool := fun _ => true

/-- Accumulating victim selection: walk the ordered candidates and take
each one while the running memory total is still below `required`. -/
def accumTake (required : Int) (acc : Int) : List (String × Nat) → List String
  | [] => []
  | c :: cs =>
    if required ≤ acc then []
    else c.1 :: accumTake required (acc + modelCost c.1) cs

/-- Stable insertion ascending by the pair (timestamp, model id), used by
the spec-side formulation of the eviction policy, which breaks timestamp
ties by model id. -/
def insertByTimeId (x : String × Nat) : List (String × Nat) → List (String × Nat)
  | [] => [x]
  | y :: ys =>
    if x.2 < y.2 ∨ (x.2 = y.2 ∧ strLe x.1 y.1 = true) then x :: y :: ys
    else y :: insertByTimeId x ys

/-- Sort ascending by (timestamp, model id). -/
def sortByTimeId : List (String × Nat) → List (String × Nat)
  | [] => []
  | x :: xs => insertByTimeId x (sortByTimeId xs)

/-- The eviction policy exactly as the spec sentence states it
(`SelectVictims`): consider exactly the active models of on-demand tier,
order ascending by `last_activity_at` with ties broken by model id, and
accumulate victims until the total reaches `required`.  No idle-time
threshold appears in this formulation. -/
def selectVictimsSpec (required : Int) (st : ModelState) : List String :=
  accumTake required 0
    (sortByTimeId (st.last_activity.filter (fun p =>
      (dictLookup p.1 st.active_models).isSome
      && (match findModel p.1 with
          | some c => decide (c.tier = ModelTier.onDemand)
          | none => false))))

/-- The eviction policy as the source implements it, in accumulation
form: candidates additionally need idle time strictly over the 10-minute
threshold, and ties keep `last_activity` dict insertion order (stable
sort), not model-id order. -/
def selectVictimsAmended (required : Int) (now : Nat) (st : ModelState) :
    List String :=
  accumTake required 0 (sortByTime (evictCandidates now st))

end Orchestrator

namespace Earth2Inference

/-- The fields of `ModelStatus` that `ModelManager` reads or writes on
the scheduling paths. -/
structure MetaEntry where
  loaded : Bool
  lastUsed : Option String
deriving DecidableEq, Repr

/-- One entry of `InferenceEngine.active_runs`: the model it runs on and
its status string. -/
structure RunEntry where
  model : String
  status : String
deriving DecidableEq, Repr

/-- The mutable state of the in-process manager: the keys of
`loaded_models` (insertion order), the `model_metadata` dict, and the
engine's `active_runs` dict. -/
structure ServerState where
  loaded_models : List String
  model_metadata : List (String × MetaEntry)
  active_runs : List (String × RunEntry)
deriving DecidableEq, Repr

/-- `ModelManager._get_required_memory`: the static MB estimates, with a
10000 MB default for anything not in the table. -/
def requiredMemoryMb (m : String) : Nat :=
  match m with
  | "fcn3" => 8000
  | "atlas" => 12000
  | "stormscope" => 4000
  | "corrdiff" => 8000
  | "pangu" => 6000
  | "aurora" => 10000
  | "fourcastnet" => 8000
  | "graphcast" => 15000
  | "fuxi" => 8000
  | _ => 10000

/-- Lookup in the metadata dict. -/
def metaLookup (k : String) : List (String × MetaEntry) → Option MetaEntry
  | [] => none
  | (k', v) :: rest => if k' = k then some v else metaLookup k rest

/-- Python dict assignment on the metadata dict. -/
def metaInsert (k : String) (v : MetaEntry) :
    List (String × MetaEntry) → List (String × MetaEntry)
  | [] => [(k, v)]
  | (k', v') :: rest =>
    if k' = k then (k, v) :: rest else (k', v') :: metaInsert k v rest

/-- The sort key of `_ensure_memory_available`:
`x[1].last_used or "1970-01-01"` (ISO strings compare chronologically). -/
def lastUsedKey (e : MetaEntry) : String :=
  e.lastUsed.getD "1970-01-01"

/-- Stable insertion ascending by `lastUsedKey`. -/
def insertByLastUsed (x : String × MetaEntry) :
    List (String × MetaEntry) → List (String × MetaEntry)
  | [] => [x]
  | y :: ys =>
    if strLe (lastUsedKey x.2) (lastUsedKey y.2) = true then x :: y :: ys
    else y :: insertByLastUsed x ys

/-- The stable `sorted(metadata.items(), key=...)` of
`_ensure_memory_available`. -/
def sortByLastUsed : List (String × MetaEntry) → List (String × MetaEntry)
  | [] => []
  | x :: xs => insertByLastUsed x (sortByLastUsed xs)

/-- `ModelManager.unload_model`: drop the model from `loaded_models` and
mark its metadata entry unloaded (a model that is not loaded is left
alone). -/
def unload_model (m : String) (st : ServerState) : ServerState :=
  if m ∈ st.loaded_models then
    { st with
      loaded_models := st.loaded_models.erase m,
      model_metadata := st.model_metadata.map (fun p =>
        if p.1 = m then (p.1, { p.2 with loaded := false }) else p) }
  else st

/-- The unload loop of `_ensure_memory_available`: walk the names in
least-recently-used order, unload each one still loaded, re-read the free
GPU memory (the oracle `q`, indexed by the number of unloads performed so
far), and stop once it covers `required`.  Returns the victims unloaded
and the final state. -/
def unloadLoop (q : Nat → Nat) (required : Nat) :
    List String → ServerState → Nat → List String × ServerState
  | [], st, _ => ([], st)
  | n :: ns, st, cnt =>
    if n ∈ st.loaded_models then
      let st' := unload_model n st
      if required ≤ q (cnt + 1) then ([n], st')
      else
        let r := unloadLoop q required ns st' (cnt + 1)
        (n :: r.1, r.2)
    else unloadLoop q required ns st cnt

/-- `ModelManager._ensure_memory_available`: if the free GPU memory
(oracle `q 0`) is below the model's requirement, unload models in
least-recently-used order until it is not.  `active_runs` is never
consulted. -/
def ensure_memory_available (q : Nat → Nat) (m : String) (st : ServerState) :
    List String × ServerState :=
  let required := requiredMemoryMb m
  if q 0 < required then
    unloadLoop q required ((sortByLastUsed st.model_metadata).map Prod.fst) st 0
  else ([], st)

/-- Whether some entry of `active_runs` is a `running` execution on
model `m`. -/
def hasRunningRun (m : String) (st : ServerState) : Bool :=
  st.active_runs.any (fun p => p.2.model = m && p.2.status = "running")

/-- Result of `ModelManager.get_model`: whether the cached fast path was
taken, whether the call succeeded, the new state, the load attempts made,
and the models unloaded on the way. -/
structure GetModelRes where
  cached : Bool
  ok : Bool
  state : ServerState
  loads : List String
  unloads : List String
deriving DecidableEq, Repr

/-- `ModelManager.get_model`: if the model is already loaded, refresh its
`last_used` and return it without touching GPU memory or the loader;
otherwise free memory if needed, attempt the load (`loadOk` oracle), and
on success record the model as loaded with fresh metadata. -/
def get_model (q : Nat → Nat) (loadOk : Bool) (now : String) (m : String)
    (st : ServerState) : GetModelRes :=
  if m ∈ st.loaded_models then
    ⟨true, true,
     { st with model_metadata := st.model_metadata.map (fun p =>
         if p.1 = m then (p.1, { p.2 with lastUsed := some now }) else p) },
     [], []⟩
  else
    let r := ensure_memory_available q m st
    if loadOk then
      ⟨false, true,
       { r.2 with
         loaded_models := r.2.loaded_models ++ [m],
         model_metadata := metaInsert m ⟨true, some now⟩ r.2.model_metadata },
       [m], r.1⟩
    else ⟨false, false, r.2, [m], r.1⟩

/-- Phase of one `run_forecast` task: waiting on the semaphore, holding a
slot with its record in status `running`, holding a slot with its record
already terminal, or finished with the slot released. -/
inductive Phase where
  | waiting
  | running
  | finished
  | released
deriving DecidableEq, Repr

/-- Whether a task in this phase holds a semaphore slot (`running` from
acquisition to the status flip, `finished` until the `async with` block
exits). -/
def slotHeld : Phase → Bool
  | .running => true
  | .finished => true
  | _ => false

/-- One submitted run: the model it targets and its phase. -/
structure Task where
  model : String
  phase : Phase
deriving DecidableEq, Repr

/-- Interleaving steps of the engine: task `i` acquires a slot and flips
its record to `running`, finishes execution (record goes terminal), or
releases its slot. -/
inductive EngStep where
  | acquire (i : Nat)
  | complete (i : Nat)
  | release (i : Nat)

/-- Number of tasks whose record is in `Running` state. -/
def countRunning (ts : List Task) : Nat :=
  ts.countP (fun t => decide (t.phase = Phase.running))

/-- Number of semaphore slots held. -/
def countHeld (ts : List Task) : Nat :=
  ts.countP (fun t => slotHeld t.phase)

/-- One engine step under semaphore capacity `N`
(`asyncio.Semaphore(max_concurrent_runs)`): acquisition is enabled only
while fewer than `N` slots are held; completion and release follow the
task's own control flow.  Steps whose guard fails do nothing. -/
def applyEngStep (N : Nat) (ts : List Task) : EngStep → List Task
  | .acquire i =>
    match ts.get? i with
    | some t =>
      if t.phase = Phase.waiting ∧ countHeld ts < N then
        ts.set i { t with phase := Phase.running }
      else ts
    | none => ts
  | .complete i =>
    match ts.get? i with
    | some t =>
      if t.phase = Phase.running then ts.set i { t with phase := Phase.finished }
      else ts
    | none => ts
  | .release i =>
    match ts.get? i with
    | some t =>
      if t.phase = Phase.finished then ts.set i { t with phase := Phase.released }
      else ts
    | none => ts

/-- The submitted runs, one task per model id in the list, all initially
queued on the semaphore. -/
def initTasks (models : List String) : List Task :=
  models.map (fun m => ⟨m, Phase.waiting⟩)

end Earth2Inference

namespace Orchestrator

theorem vram_nonneg : ∀ p ∈ MODELS, (0 : Int) ≤ p.2.vramGb := by decide

theorem modelCost_nonneg (mid : String) : 0 ≤ modelCost mid := by
  unfold modelCost findModel
  cases h : MODELS.find? (fun p => p.1 = mid) with
  | none => simp
  | some p =>
    have hmem : p ∈ MODELS := List.mem_of_find?_eq_some h
    simpa using vram_nonneg p hmem

theorem sumVram_dictErase_le (k : String) (l : List (String × Nat)) :
    ((dictErase k l).map (fun p => modelCost p.1)).sum ≤
      (l.map (fun p => modelCost p.1)).sum := by
  induction l with
  | nil => simp [dictErase]
  | cons hd tl ih =>
    by_cases hk : hd.1 = k
    · simp only [dictErase, hk, if_pos, List.map_cons, List.sum_cons]
      have := modelCost_nonneg k
      linarith
    · simp only [dictErase, hk, if_neg, not_false_iff, List.map_cons, List.sum_cons]
      linarith

theorem sumVram_dictInsert_le (k : String) (v : Nat) (l : List (String × Nat)) :
    ((dictInsert k v l).map (fun p => modelCost p.1)).sum ≤
      (l.map (fun p => modelCost p.1)).sum + modelCost k := by
  induction l with
  | nil => simp [dictInsert]
  | cons hd tl ih =>
    by_cases hk : hd.1 = k
    · simp only [dictInsert, hk, if_pos, List.map_cons, List.sum_cons]
      have := modelCost_nonneg k
      linarith
    · simp only [dictInsert, hk, if_neg, not_false_iff, List.map_cons, List.sum_cons]
      linarith

theorem dictErase_sublist (k : String) (l : List (String × Nat)) :
    (dictErase k l).Sublist l := by
  induction l with
  | nil => simp [dictErase]
  | cons hd tl ih =>
    by_cases hk : hd.1 = k
    · simp only [dictErase, hk, if_pos]
      exact List.sublist_cons_self hd tl
    · simp only [dictErase, hk, if_neg, not_false_iff]
      exact ih.cons₂ hd

theorem usedVram_scale_down_le (gw : String → Bool) (mid : String)
    (st : ModelState) :
    usedVram (scale_down_model gw mid st).2.1 ≤ usedVram st := by
  unfold scale_down_model
  cases h : findModel mid with
  | none => simp
  | some c =>
    by_cases ht : c.tier = ModelTier.alwaysOn
    · simp [ht]
    · by_cases hg : gw c.name
      · simpa [ht, hg, usedVram] using sumVram_dictErase_le mid st.active_models
      · simp [ht, hg]

theorem scale_down_last_activity (gw : String → Bool) (mid : String)
    (st : ModelState) :
    (scale_down_model gw mid st).2.1.last_activity = st.last_activity := by
  unfold scale_down_model
  cases h : findModel mid with
  | none => rfl
  | some c =>
    by_cases ht : c.tier = ModelTier.alwaysOn
    · simp [ht]
    · by_cases hg : gw c.name <;> simp [ht, hg]

theorem scale_down_active_sublist (gw : String → Bool) (mid : String)
    (st : ModelState) :
    (scale_down_model gw mid st).2.1.active_models.Sublist st.active_models := by
  unfold scale_down_model
  cases h : findModel mid with
  | none => simp
  | some c =>
    by_cases ht : c.tier = ModelTier.alwaysOn
    · simp [ht]
    · by_cases hg : gw c.name
      · simpa [ht, hg] using dictErase_sublist mid st.active_models
      · simp [ht, hg]

theorem evictLoop_usedVram_le (gw : String → Bool) (required : Int)
    (cs : List (String × Nat)) (freed : Int) (st : ModelState) :
    usedVram (evictLoop gw required cs freed st).2.2.1 ≤ usedVram st := by
  induction cs generalizing freed st with
  | nil => simp [evictLoop]
  | cons c cs ih =>
    by_cases hb : required ≤ freed
    · simp [evictLoop, hb]
    · simp only [evictLoop, hb, if_neg, not_false_iff]
      cases hs : scale_down_model gw c.1 st with
      | mk ok rest =>
        have hle : usedVram rest.1 ≤ usedVram st := by
          have := usedVram_scale_down_le gw c.1 st
          rwa [hs] at this
        cases ok
        · simpa using le_trans (ih freed rest.1) hle
        · simpa using le_trans (ih (freed + modelCost c.1) rest.1) hle

theorem evictLoop_last_activity (gw : String → Bool) (required : Int)
    (cs : List (String × Nat)) (freed : Int) (st : ModelState) :
    (evictLoop gw required cs freed st).2.2.1.last_activity = st.last_activity := by
  induction cs generalizing freed st with
  | nil => simp [evictLoop]
  | cons c cs ih =>
    by_cases hb : required ≤ freed
    · simp [evictLoop, hb]
    · simp only [evictLoop, hb, if_neg, not_false_iff]
      cases hs : scale_down_model gw c.1 st with
      | mk ok rest =>
        have hla : rest.1.last_activity = st.last_activity := by
          have := scale_down_last_activity gw c.1 st
          rwa [hs] at this
        cases ok
        · simpa using (ih freed rest.1).trans hla
        · simpa using (ih (freed + modelCost c.1) rest.1).trans hla

theorem evictLoop_active_sublist (gw : String → Bool) (required : Int)
    (cs : List (String × Nat)) (freed : Int) (st : ModelState) :
    (evictLoop gw required cs freed st).2.2.1.active_models.Sublist
      st.active_models := by
  induction cs generalizing freed st with
  | nil => simp [evictLoop]
  | cons c cs ih =>
    by_cases hb : required ≤ freed
    · simp [evictLoop, hb]
    · simp only [evictLoop, hb, if_neg, not_false_iff]
      cases hs : scale_down_model gw c.1 st with
      | mk ok rest =>
        have hsub : rest.1.active_models.Sublist st.active_models := by
          have := scale_down_active_sublist gw c.1 st
          rwa [hs] at this
        cases ok
        · simpa using (ih freed rest.1).trans hsub
        · simpa using (ih (freed + modelCost c.1) rest.1).trans hsub

theorem evict_usedVram_le (gw : String → Bool) (required : Int) (now : Nat)
    (st : ModelState) :
    usedVram (evict_idle_models gw required now st).1 ≤ usedVram st :=
  evictLoop_usedVram_le gw required _ 0 st

theorem evict_last_activity (gw : String → Bool) (required : Int) (now : Nat)
    (st : ModelState) :
    (evict_idle_models gw required now st).1.last_activity = st.last_activity :=
  evictLoop_last_activity gw required _ 0 st

theorem evict_active_sublist (gw : String → Bool) (required : Int) (now : Nat)
    (st : ModelState) :
    (evict_idle_models gw required now st).1.active_models.Sublist
      st.active_models :=
  evictLoop_active_sublist gw required _ 0 st

theorem modelCost_of_find (mid : String) (c : ModelConfig)
    (hf : findModel mid = some c) : modelCost mid = c.vramGb := by
  simp [modelCost, hf]

theorem can_schedule_le (mid : String) (c : ModelConfig) (st : ModelState)
    (hf : findModel mid = some c) (h : can_schedule_model mid st = true) :
    c.vramGb ≤ get_available_vram st := by
  simpa [can_schedule_model, hf] using h

theorem usedVram_commit_le (mid : String) (now : Nat) (σ : ModelState)
    (c : ModelConfig) (hf : findModel mid = some c)
    (h2 : c.vramGb ≤ get_available_vram σ) :
    usedVram ⟨dictInsert mid now σ.active_models,
              dictInsert mid now σ.last_activity⟩ ≤ MAX_VRAM_GB := by
  have hins := sumVram_dictInsert_le mid now σ.active_models
  have hcost := modelCost_of_find mid c hf
  unfold get_available_vram at h2
  unfold usedVram at *
  simp only at *
  linarith

theorem usedVram_scale_up_le (gw : String → Bool) (mid : String) (now : Nat)
    (st : ModelState) (h : usedVram st ≤ MAX_VRAM_GB) :
    usedVram (scale_up_model gw mid now st).state ≤ MAX_VRAM_GB := by
  unfold scale_up_model
  cases hf : findModel mid with
  | none => simpa using h
  | some c =>
    by_cases h1 : can_schedule_model mid st = true
    · by_cases h3 : gw c.name = true
      · simp only [h1, if_pos, h3, if_true]
        exact usedVram_commit_le mid now st c hf (can_schedule_le mid c st hf h1)
      · simpa [h1, h3] using h
    · have hev := evict_usedVram_le gw c.vramGb now st
      by_cases h2 : can_schedule_model mid (evict_idle_models gw c.vramGb now st).1 = true
      · by_cases h3 : gw c.name = true
        · simp only [h1, if_neg, not_false_iff, Bool.not_eq_true, h2, h3, if_pos, if_true]
          exact usedVram_commit_le mid now _ c hf (can_schedule_le mid c _ hf h2)
        · simpa [h1, h2, h3] using le_trans hev h
      · simpa [h1, h2] using le_trans hev h

theorem usedVram_applyEvent_le (st : ModelState) (e : Event)
    (h : usedVram st ≤ MAX_VRAM_GB) :
    usedVram (applyEvent st e) ≤ MAX_VRAM_GB := by
  cases e with
  | scaleUp gw mid now => exact usedVram_scale_up_le gw mid now st h
  | scaleDown gw mid =>
    exact le_trans (usedVram_scale_down_le gw mid st) h
  | heartbeat mid now => simpa [applyEvent, model_heartbeat, usedVram] using h
  | evict gw required now =>
    exact le_trans (evict_usedVram_le gw required now st) h
  | reaperFire gw mid t now =>
    simp only [applyEvent, auto_scale_down_fire]
    cases hl : dictLookup mid st.last_activity with
    | some last =>
      dsimp only
      by_cases hd : ((now : Int) - (last : Int)) < 60 * (t : Int)
      · rw [if_pos hd]
        exact h
      · rw [if_neg hd]
        exact le_trans (usedVram_scale_down_le gw mid st) h
    | none => exact le_trans (usedVram_scale_down_le gw mid st) h

/-- C1: for every reachable scheduler state — after any sequence of
admissions, heartbeats, evictions, explicit scale-downs and reaper
firings — the sum of `memory_cost` over the currently active models is at
most `MAX_VRAM_GB`; and a model is recorded active by an admission only
when the availability check at commit time establishes that its cost fits
(so the post-admission ledger is within budget, regardless of the
pre-state). -/
theorem budget_ledger_invariant :
    (∀ es : List Event, usedVram (runEvents es) ≤ MAX_VRAM_GB) ∧
    (∀ (gw : String → Bool) (mid : String) (now : Nat) (st : ModelState),
      mid ∉ activeKeys st →
      mid ∈ activeKeys (scale_up_model gw mid now st).state →
      usedVram (scale_up_model gw mid now st).state ≤ MAX_VRAM_GB) := by
  constructor
  · intro es
    have main : ∀ (l : List Event) (st : ModelState),
        usedVram st ≤ MAX_VRAM_GB →
        usedVram (l.foldl applyEvent st) ≤ MAX_VRAM_GB := by
      intro l
      induction l with
      | nil => intro st h; simpa using h
      | cons e rest ih =>
        intro st h
        exact ih (applyEvent st e) (usedVram_applyEvent_le st e h)
    have h0 : usedVram initState ≤ MAX_VRAM_GB := by
      simp [usedVram, initState, MAX_VRAM_GB]
    exact main es initState h0
  · intro gw mid now st hnot hmem
    unfold scale_up_model at hmem ⊢
    cases hf : findModel mid with
    | none => rw [hf] at hmem; exact absurd hmem hnot
    | some c =>
      rw [hf] at hmem
      by_cases h1 : can_schedule_model mid st = true
      · by_cases h3 : gw c.name = true
        · simp only [h1, if_pos, h3, if_true]
          exact usedVram_commit_le mid now st c hf (can_schedule_le mid c st hf h1)
        · simp only [h1, if_pos, h3] at hmem
          simp only [Bool.false_eq_true, if_false] at hmem
          exact absurd hmem hnot
      · have hsub := evict_active_sublist gw c.vramGb now st
        by_cases h2 : can_schedule_model mid (evict_idle_models gw c.vramGb now st).1 = true
        · by_cases h3 : gw c.name = true
          · simp only [h1, if_neg, not_false_iff, Bool.not_eq_true, h2, h3, if_pos, if_true]
            exact usedVram_commit_le mid now _ c hf (can_schedule_le mid c _ hf h2)
          · simp only [h1, h2, h3, Bool.false_eq_true, if_false, if_true,
              Bool.not_eq_true, if_neg] at hmem
            exact absurd ((hsub.map Prod.fst).subset hmem) hnot
        · simp only [h1, h2, Bool.false_eq_true, if_false, Bool.not_eq_true] at hmem
          exact absurd ((hsub.map Prod.fst).subset hmem) hnot

/-- Witness for C1: admitting `atlas` from the boot state records it and
the resulting ledger is within budget. -/
theorem scale_down_success_tier (gw : String → Bool) (mid : String)
    (st : ModelState) (h : (scale_down_model gw mid st).1 = true) :
    ∃ c, findModel mid = some c ∧ c.tier = ModelTier.onDemand := by
  unfold scale_down_model at h
  cases hf : findModel mid with
  | none => rw [hf] at h; simp at h
  | some c =>
    rw [hf] at h
    cases hc : c.tier with
    | alwaysOn => simp [hc] at h
    | onDemand => exact ⟨c, rfl, hc⟩

theorem scale_down_alwaysOn_refuses (gw : String → Bool) (mid : String)
    (st : ModelState) (c : ModelConfig) (hf : findModel mid = some c)
    (ht : c.tier = ModelTier.alwaysOn) :
    scale_down_model gw mid st = (false, st, []) := by
  simp [scale_down_model, hf, ht]

theorem evictLoop_victims_tier (gw : String → Bool) (required : Int)
    (cs : List (String × Nat)) (freed : Int) (st : ModelState) (mid : String)
    (h : mid ∈ (evictLoop gw required cs freed st).2.1) :
    ∃ c, findModel mid = some c ∧ c.tier = ModelTier.onDemand := by
  induction cs generalizing freed st with
  | nil => simp [evictLoop] at h
  | cons c cs ih =>
    by_cases hb : required ≤ freed
    · simp [evictLoop, hb] at h
    · simp only [evictLoop, hb, if_neg, not_false_iff] at h
      cases hs : scale_down_model gw c.1 st with
      | mk ok rest =>
        rw [hs] at h
        cases ok with
        | true =>
          dsimp only at h
          rw [List.mem_cons] at h
          cases h with
          | inl he =>
            have hsm : (scale_down_model gw c.1 st).1 = true := by rw [hs]
            obtain ⟨cfg, hfc, htc⟩ := scale_down_success_tier gw c.1 st hsm
            exact ⟨cfg, he ▸ hfc, htc⟩
          | inr hr => exact ih _ _ hr
        | false =>
          dsimp only at h
          exact ih _ _ h

theorem mem_keys_dictErase_of_ne (m k : String) (l : List (String × Nat))
    (hm : m ∈ l.map Prod.fst) (hne : m ≠ k) :
    m ∈ (dictErase k l).map Prod.fst := by
  induction l with
  | nil => simp at hm
  | cons hd tl ih =>
    simp only [List.map_cons, List.mem_cons] at hm
    by_cases hk : hd.1 = k
    · simp only [dictErase, hk, if_pos]
      cases hm with
      | inl he => exact absurd (he.trans hk) hne
      | inr hr => exact hr
    · simp only [dictErase, hk, if_neg, not_false_iff, List.map_cons, List.mem_cons]
      cases hm with
      | inl he => exact Or.inl he
      | inr hr => exact Or.inr (ih hr)

theorem mem_keys_dictInsert (m k : String) (v : Nat) (l : List (String × Nat))
    (hm : m ∈ l.map Prod.fst) : m ∈ (dictInsert k v l).map Prod.fst := by
  induction l with
  | nil => simp at hm
  | cons hd tl ih =>
    simp only [List.map_cons, List.mem_cons] at hm
    by_cases hk : hd.1 = k
    · simp only [dictInsert, hk, if_pos, List.map_cons, List.mem_cons]
      cases hm with
      | inl he => exact Or.inl (he.trans hk)
      | inr hr => exact Or.inr hr
    · simp only [dictInsert, hk, if_neg, not_false_iff, List.map_cons, List.mem_cons]
      cases hm with
      | inl he => exact Or.inl he
      | inr hr => exact Or.inr (ih hr)

theorem scale_down_alwaysOn_mem (gw : String → Bool) (x m : String)
    (st : ModelState) (c : ModelConfig) (hf : findModel m = some c)
    (ht : c.tier = ModelTier.alwaysOn) (hm : m ∈ activeKeys st) :
    m ∈ activeKeys (scale_down_model gw x st).2.1 := by
  unfold scale_down_model
  cases hfx : findModel x with
  | none => exact hm
  | some cx =>
    by_cases htx : cx.tier = ModelTier.alwaysOn
    · simp only [htx, if_pos]
      exact hm
    · by_cases hg : gw cx.name = true
      · simp only [htx, if_neg, not_false_iff, hg, if_pos]
        have hne : m ≠ x := by
          intro he
          rw [he, hfx] at hf
          cases hf
          exact htx ht
        exact mem_keys_dictErase_of_ne m x st.active_models hm hne
      · simp only [htx, hg]
        simp only [Bool.false_eq_true, if_false, if_neg, not_false_iff]
        exact hm

theorem evictLoop_alwaysOn_mem (gw : String → Bool) (required : Int)
    (cs : List (String × Nat)) (freed : Int) (st : ModelState) (m : String)
    (c : ModelConfig) (hf : findModel m = some c)
    (ht : c.tier = ModelTier.alwaysOn) (hm : m ∈ activeKeys st) :
    m ∈ activeKeys (evictLoop gw required cs freed st).2.2.1 := by
  induction cs generalizing freed st with
  | nil => simpa [evictLoop] using hm
  | cons x cs ih =>
    by_cases hb : required ≤ freed
    · simpa [evictLoop, hb] using hm
    · simp only [evictLoop, hb, if_neg, not_false_iff]
      cases hs : scale_down_model gw x.1 st with
      | mk ok rest =>
        have hm' : m ∈ activeKeys rest.1 := by
          have := scale_down_alwaysOn_mem gw x.1 m st c hf ht hm
          rwa [hs] at this
        cases ok with
        | true => exact ih _ _ hm'
        | false => exact ih _ _ hm'

theorem evict_alwaysOn_mem (gw : String → Bool) (required : Int) (now : Nat)
    (st : ModelState) (m : String) (c : ModelConfig)
    (hf : findModel m = some c) (ht : c.tier = ModelTier.alwaysOn)
    (hm : m ∈ activeKeys st) :
    m ∈ activeKeys (evict_idle_models gw required now st).1 :=
  evictLoop_alwaysOn_mem gw required _ 0 st m c hf ht hm

/-- C3: the eviction path never touches an always-on model: every victim
returned by `evict_idle_models` is a known on-demand model,
`scale_down_model` refuses an always-on model outright (returning failure
with the state untouched and no gateway call), and an always-on model
that is active stays active through any admission attempt — when even
evicting every eligible on-demand model cannot free enough, the admission
fails rather than scaling an always-on model down. -/
theorem no_always_on_evicted :
    (∀ (gw : String → Bool) (required : Int) (now : Nat) (st : ModelState)
       (mid : String),
       mid ∈ (evict_idle_models gw required now st).2.1 →
       ∃ c, findModel mid = some c ∧ c.tier = ModelTier.onDemand) ∧
    (∀ (gw : String → Bool) (mid : String) (st : ModelState) (c : ModelConfig),
       findModel mid = some c → c.tier = ModelTier.alwaysOn →
       scale_down_model gw mid st = (false, st, [])) ∧
    (∀ (gw : String → Bool) (mid m : String) (now : Nat) (st : ModelState)
       (c : ModelConfig),
       findModel m = some c → c.tier = ModelTier.alwaysOn →
       m ∈ activeKeys st →
       m ∈ activeKeys (scale_up_model gw mid now st).state) := by
  refine ⟨?_, ?_, ?_⟩
  · intro gw required now st mid h
    exact evictLoop_victims_tier gw required _ 0 st mid h
  · intro gw mid st c hf ht
    exact scale_down_alwaysOn_refuses gw mid st c hf ht
  · intro gw mid m now st c hf ht hm
    unfold scale_up_model
    cases hfm : findModel mid with
    | none => exact hm
    | some cfg =>
      by_cases h1 : can_schedule_model mid st = true
      · by_cases h3 : gw cfg.name = true
        · simp only [h1, if_pos, h3, if_true]
          exact mem_keys_dictInsert m mid now st.active_models hm
        · simpa [h1, h3] using hm
      · have hev : m ∈ activeKeys (evict_idle_models gw cfg.vramGb now st).1 :=
          evict_alwaysOn_mem gw cfg.vramGb now st m c hf ht hm
        by_cases h2 : can_schedule_model mid (evict_idle_models gw cfg.vramGb now st).1 = true
        · by_cases h3 : gw cfg.name = true
          · simp only [h1, if_neg, not_false_iff, Bool.not_eq_true, h2, h3, if_pos, if_true]
            exact mem_keys_dictInsert m mid now _ hev
          · simpa [h1, h2, h3] using hev
        · simpa [h1, h2] using hev

/-- Witness for C3: the eviction that selects `pangu` (idle on-demand)
yields a victim that is indeed a known on-demand model. -/
theorem no_always_on_evicted_witness :
    ∃ c, findModel "pangu" = some c ∧ c.tier = ModelTier.onDemand :=
  no_always_on_evicted.1 gwTrue 13 1000
    ⟨[("atlas", 0), ("pangu", 0)], [("atlas", 100), ("pangu", 50)]⟩ "pangu"
    (by decide)

theorem mem_insertByTime (a x : String × Nat) (l : List (String × Nat))
    (h : a ∈ insertByTime x l) : a = x ∨ a ∈ l := by
  induction l with
  | nil =>
    simp only [insertByTime, List.mem_singleton] at h
    exact Or.inl h
  | cons y ys ih =>
    by_cases hc : x.2 ≤ y.2
    · simpa [insertByTime, hc] using h
    · simp only [insertByTime, hc, if_neg, not_false_iff, List.mem_cons] at h
      cases h with
      | inl hy => exact Or.inr (by simp [hy])
      | inr hr =>
        cases ih hr with
        | inl he => exact Or.inl he
        | inr hm => exact Or.inr (List.mem_cons_of_mem y hm)

theorem mem_sortByTime (a : String × Nat) (l : List (String × Nat))
    (h : a ∈ sortByTime l) : a ∈ l := by
  induction l with
  | nil => simp [sortByTime] at h
  | cons x xs ih =>
    simp only [sortByTime] at h
    cases mem_insertByTime a x (sortByTime xs) h with
    | inl he => simp [he]
    | inr hm => exact List.mem_cons_of_mem x (ih hm)

theorem evictLoop_victims_pair (gw : String → Bool) (required : Int)
    (cs : List (String × Nat)) (freed : Int) (st : ModelState) (mid : String)
    (h : mid ∈ (evictLoop gw required cs freed st).2.1) :
    ∃ v, (mid, v) ∈ cs := by
  induction cs generalizing freed st with
  | nil => simp [evictLoop] at h
  | cons c cs ih =>
    by_cases hb : required ≤ freed
    · simp [evictLoop, hb] at h
    · simp only [evictLoop, hb, if_neg, not_false_iff] at h
      cases hs : scale_down_model gw c.1 st with
      | mk ok rest =>
        rw [hs] at h
        cases ok with
        | true =>
          dsimp only at h
          rw [List.mem_cons] at h
          cases h with
          | inl he => exact ⟨c.2, by simp [he]⟩
          | inr hr =>
            obtain ⟨v, hv⟩ := ih _ _ hr
            exact ⟨v, List.mem_cons_of_mem c hv⟩
        | false =>
          dsimp only at h
          obtain ⟨v, hv⟩ := ih _ _ h
          exact ⟨v, List.mem_cons_of_mem c hv⟩

/-- C10: the source's eviction routine only ever selects victims whose
recorded activity is strictly older than the fixed 10-minute threshold,
whatever the required amount; consequently an admission can fail with
insufficient VRAM even though an active on-demand model (with no notion
of a running execution blocking it) holds enough memory to cover the
request — here `graphcast` (20 GB) is refused while `aurora` (20 GB,
on-demand, last active 300 s ago) stays resident. -/
theorem eviction_idle_threshold :
    (∀ (gw : String → Bool) (required : Int) (now : Nat) (st : ModelState)
       (mid : String),
       mid ∈ (evict_idle_models gw required now st).2.1 →
       ∃ last, (mid, last) ∈ st.last_activity ∧ idleThresholdS < now - last) ∧
    ((scale_up_model gwTrue "graphcast" 1000
        ⟨[("aurora", 0)], [("aurora", 700)]⟩).outcome =
          ScaleUpOutcome.insufficientVram ∧
     (scale_up_model gwTrue "graphcast" 1000
        ⟨[("aurora", 0)], [("aurora", 700)]⟩).state =
          ⟨[("aurora", 0)], [("aurora", 700)]⟩ ∧
     "aurora" ∈ activeKeys ⟨[("aurora", 0)], [("aurora", 700)]⟩ ∧
     (∃ c, findModel "aurora" = some c ∧ c.tier = ModelTier.onDemand) ∧
     modelCost "graphcast" ≤
       get_available_vram ⟨[("aurora", 0)], [("aurora", 700)]⟩ +
         modelCost "aurora" ∧
     1000 - 700 ≤ idleThresholdS) := by
  constructor
  · intro gw required now st mid h
    obtain ⟨v, hv⟩ := evictLoop_victims_pair gw required _ 0 st mid h
    have hv' := mem_sortByTime (mid, v) _ hv
    unfold evictCandidates at hv'
    rw [List.mem_filter] at hv'
    refine ⟨v, hv'.1, ?_⟩
    have hcond := hv'.2
    simp only [Bool.and_eq_true, decide_eq_true_eq] at hcond
    exact hcond.2
  · exact ⟨by decide, by decide, by decide, by decide, by decide, by decide⟩

/-- Witness for C10: the victim selected from a state with two stale
on-demand models is indeed recorded idle for longer than the
threshold. -/
theorem eviction_idle_threshold_witness :
    ∃ last, ("pangu", last) ∈ [("atlas", 100), ("pangu", 50)] ∧
      idleThresholdS < 1000 - last :=
  eviction_idle_threshold.1 gwTrue 13 1000
    ⟨[("atlas", 0), ("pangu", 0)], [("atlas", 100), ("pangu", 50)]⟩ "pangu"
    (by decide)

theorem scale_down_onDemand_gwTrue (mid : String) (st : ModelState)
    (c : ModelConfig) (hf : findModel mid = some c)
    (ht : c.tier = ModelTier.onDemand) :
    scale_down_model gwTrue mid st =
      (true, { st with active_models := dictErase mid st.active_models },
       [(c.name, 0)]) := by
  have hne : c.tier ≠ ModelTier.alwaysOn := by rw [ht]; intro hc; cases hc
  simp [scale_down_model, hf, hne, gwTrue]

theorem evictLoop_gwTrue_accumTake (required : Int)
    (cs : List (String × Nat))
    (hcs : ∀ p ∈ cs, ∃ c, findModel p.1 = some c ∧ c.tier = ModelTier.onDemand) :
    ∀ (freed : Int) (st : ModelState),
      (evictLoop gwTrue required cs freed st).2.1 = accumTake required freed cs := by
  induction cs with
  | nil => intro freed st; simp [evictLoop, accumTake]
  | cons c cs ih =>
    intro freed st
    by_cases hb : required ≤ freed
    · simp [evictLoop, accumTake, hb]
    · obtain ⟨cfg, hf, ht⟩ := hcs c (List.mem_cons_self c cs)
      have hsd := scale_down_onDemand_gwTrue c.1 st cfg hf ht
      have hrest : ∀ p ∈ cs, ∃ c, findModel p.1 = some c ∧ c.tier = ModelTier.onDemand :=
        fun p hp => hcs p (List.mem_cons_of_mem c hp)
      simp only [evictLoop, accumTake, hb, if_neg, not_false_iff, hsd]
      exact congrArg (List.cons c.1) (ih hrest _ _)

/-- C2 counterexample: the eviction policy as the spec states it
disagrees with the code on two points, each at an explicit input.  With
`aurora` active and on-demand but last active 500 s ago, the spec-side
selection picks it while the code selects nobody (the code also requires
idle time strictly over 10 minutes).  With `pangu` and `atlas` recorded
at the same stale timestamp but inserted in that order, the code evicts
in dict insertion order `pangu, atlas`, not in the spec's model-id order
`atlas, pangu`. -/
theorem lru_spec_counterexample :
    ((evict_idle_models gwTrue 5 700 ⟨[("aurora", 0)], [("aurora", 200)]⟩).2.1
        = [] ∧
     selectVictimsSpec 5 ⟨[("aurora", 0)], [("aurora", 200)]⟩ = ["aurora"]) ∧
    ((evict_idle_models gwTrue 100 1000
        ⟨[("pangu", 0), ("atlas", 0)], [("pangu", 100), ("atlas", 100)]⟩).2.1
        = ["pangu", "atlas"] ∧
     selectVictimsSpec 100
        ⟨[("pangu", 0), ("atlas", 0)], [("pangu", 100), ("atlas", 100)]⟩
        = ["atlas", "pangu"]) := by
  exact ⟨⟨by decide, by decide⟩, ⟨by decide, by decide⟩⟩

/-- C2 amended: with a gateway that accepts every scale-down, the victims
chosen by `evict_idle_models` are exactly the accumulating LRU selection
over the candidates the code actually considers — active on-demand models
whose idle time strictly exceeds the 10-minute threshold, ordered
ascending by `last_activity` with ties keeping dict insertion order —
taking victims while the freed total is still below `required`. -/
theorem evict_matches_amended_lru :
    ∀ (required : Int) (now : Nat) (st : ModelState),
      (evict_idle_models gwTrue required now st).2.1 =
        selectVictimsAmended required now st := by
  intro required now st
  unfold evict_idle_models selectVictimsAmended
  refine evictLoop_gwTrue_accumTake required _ ?_ 0 st
  intro p hp
  have hp' := mem_sortByTime p _ hp
  unfold evictCandidates at hp'
  rw [List.mem_filter] at hp'
  have hcond := hp'.2
  simp only [Bool.and_eq_true] at hcond
  obtain ⟨⟨hact, htier⟩, hidle⟩ := hcond
  cases hf : findModel p.1 with
  | none => rw [hf] at htier; simp at htier
  | some c =>
    rw [hf] at htier
    simp only [decide_eq_true_eq] at htier
    exact ⟨c, rfl, htier⟩

/-- C6 counterexample: an admission attempt for `graphcast` that fails
with insufficient VRAM nevertheless leaves the ledger changed: the idle
on-demand model `atlas` was evicted during the failed attempt and stays
evicted, so the ledger is not "exactly as it was before the attempt". -/
theorem failed_admission_ledger_changed :
    (scale_up_model gwTrue "graphcast" 1000
       ⟨[("atlas", 0), ("aurora", 0)], [("atlas", 0), ("aurora", 900)]⟩).outcome
      = ScaleUpOutcome.insufficientVram ∧
    (scale_up_model gwTrue "graphcast" 1000
       ⟨[("atlas", 0), ("aurora", 0)], [("atlas", 0), ("aurora", 900)]⟩).state.active_models
      = [("aurora", 0)] ∧
    usedVram (scale_up_model gwTrue "graphcast" 1000
       ⟨[("atlas", 0), ("aurora", 0)], [("atlas", 0), ("aurora", 900)]⟩).state
      ≠ usedVram ⟨[("atlas", 0), ("aurora", 0)], [("atlas", 0), ("aurora", 900)]⟩ := by
  exact ⟨by decide, by decide, by decide⟩

/-- C6 amended: whenever an admission fails (unknown model, insufficient
VRAM after eviction, or gateway refusal), no reservation is made for the
requested model and no record is created — the final `active_models` is a
sublist of the original (only evictions), the charged VRAM has not
increased, and `last_activity` is untouched.  Evictions performed during
the failed attempt, however, remain committed. -/
theorem failed_admission_no_reservation :
    ∀ (gw : String → Bool) (mid : String) (now : Nat) (st : ModelState),
      (scale_up_model gw mid now st).outcome ≠ ScaleUpOutcome.success →
      (scale_up_model gw mid now st).state.active_models.Sublist
          st.active_models ∧
      usedVram (scale_up_model gw mid now st).state ≤ usedVram st ∧
      (scale_up_model gw mid now st).state.last_activity = st.last_activity := by
  intro gw mid now st hfail
  unfold scale_up_model at hfail ⊢
  cases hf : findModel mid with
  | none => exact ⟨List.Sublist.refl _, le_refl _, rfl⟩
  | some c =>
    rw [hf] at hfail
    by_cases h1 : can_schedule_model mid st = true
    · by_cases h3 : gw c.name = true
      · simp [h1, h3] at hfail
      · simp only [h1, if_pos, h3, Bool.false_eq_true, if_false]
        exact ⟨List.Sublist.refl _, le_refl _, by trivial⟩
    · by_cases h2 : can_schedule_model mid
          (evict_idle_models gw c.vramGb now st).1 = true
      · by_cases h3 : gw c.name = true
        · simp [h1, h2, h3] at hfail
        · simp only [h1, Bool.false_eq_true, if_false, h2, if_pos, h3]
          exact ⟨evict_active_sublist gw c.vramGb now st,
                 evict_usedVram_le gw c.vramGb now st,
                 evict_last_activity gw c.vramGb now st⟩
      · simp only [h1, Bool.false_eq_true, if_false, h2]
        exact ⟨evict_active_sublist gw c.vramGb now st,
               evict_usedVram_le gw c.vramGb now st,
               evict_last_activity gw c.vramGb now st⟩

/-- Witness for C6 amended: the failing admission of `aurora` (already
resident, recently active) leaves the ledger unreserved and the activity
record untouched. -/
theorem failed_admission_no_reservation_witness :
    (scale_up_model gwTrue "aurora" 100
        ⟨[("aurora", 0)], [("aurora", 0)]⟩).state.active_models.Sublist
        [("aurora", 0)] ∧
    usedVram (scale_up_model gwTrue "aurora" 100
        ⟨[("aurora", 0)], [("aurora", 0)]⟩).state ≤
      usedVram ⟨[("aurora", 0)], [("aurora", 0)]⟩ ∧
    (scale_up_model gwTrue "aurora" 100
        ⟨[("aurora", 0)], [("aurora", 0)]⟩).state.last_activity
      = [("aurora", 0)] := by
  have h := failed_admission_no_reservation gwTrue "aurora" 100
    ⟨[("aurora", 0)], [("aurora", 0)]⟩ (by decide)
  exact ⟨h.1, h.2.1, h.2.2⟩

/-- C7: the reaper firing chain deactivates a model before its idle
timeout has elapsed since the last activity.  A timer armed for 30
minutes fires at 1800 s; a heartbeat arrived at 1764 s, so the claim
expects a rearm of exactly 29.4 minutes (1764 s).  The code instead
reschedules with `int(29.4) = 29` minutes and passes that shrunken value
as the next firing's `timeout_minutes`.  The rescheduled firing at 3540 s
compares the elapsed 1776 s against its own 29-minute parameter — not
against the model's 30-minute timeout — and scales the model down even
though only 1776 s < 1800 s have passed since the last activity. -/
theorem reaper_early_deactivation :
    (auto_scale_down_fire gwTrue "aurora" 30 1800
        ⟨[("aurora", 0)], [("aurora", 1764)]⟩).1 = ReaperAction.rearm 29 ∧
    (29 : Nat) * 60 ≠ 30 * 60 - (1800 - 1764) ∧
    (auto_scale_down_fire gwTrue "aurora" 29 3540
        ⟨[("aurora", 0)], [("aurora", 1764)]⟩).1 = ReaperAction.scaledDown ∧
    (auto_scale_down_fire gwTrue "aurora" 29 3540
        ⟨[("aurora", 0)], [("aurora", 1764)]⟩).2.1.active_models = [] ∧
    3540 - 1764 < 30 * 60 := by
  exact ⟨by decide, by decide, by decide, by decide, by decide⟩

theorem dictLookup_dictInsert_self (k : String) (v : Nat)
    (l : List (String × Nat)) : dictLookup k (dictInsert k v l) = some v := by
  induction l with
  | nil => simp [dictInsert, dictLookup]
  | cons hd tl ih =>
    by_cases hk : hd.1 = k
    · simp [dictInsert, hk, dictLookup]
    · simp [dictInsert, hk, dictLookup, ih]

theorem dictLookup_dictInsert_ne (k k' : String) (v : Nat)
    (l : List (String × Nat)) (h : k' ≠ k) :
    dictLookup k' (dictInsert k v l) = dictLookup k' l := by
  induction l with
  | nil =>
    simp only [dictInsert, dictLookup]
    rw [if_neg (Ne.symm h)]
  | cons hd tl ih =>
    by_cases hk : hd.1 = k
    · simp only [dictInsert, hk, if_pos, dictLookup]
      rw [if_neg (Ne.symm h), if_neg (Ne.symm h)]
    · simp only [dictInsert, hk, if_neg, not_false_iff, dictLookup]
      by_cases hk' : hd.1 = k'
      · rw [if_pos hk', if_pos hk']
      · rw [if_neg hk', if_neg hk', ih]

/-- C8 counterexample: a heartbeat for `pangu`, which is not active,
does change the scheduler's recorded activity data — the endpoint stores
`last_activity` unconditionally for any id. -/
theorem heartbeat_inactive_counterexample :
    ("pangu" ∉ activeKeys initState) ∧
    (model_heartbeat "pangu" 100 initState).last_activity ≠
      initState.last_activity := by
  exact ⟨by decide, by decide⟩

/-- C8 amended: a heartbeat never activates a model and leaves the active
set (hence the ledger) unchanged, but it inserts or refreshes the
`last_activity` entry of the given id — even for inactive or unknown
models — leaving every other id's entry unchanged. -/
theorem heartbeat_inactive_frame :
    ∀ (mid : String) (now : Nat) (st : ModelState),
      (model_heartbeat mid now st).active_models = st.active_models ∧
      usedVram (model_heartbeat mid now st) = usedVram st ∧
      dictLookup mid (model_heartbeat mid now st).last_activity = some now ∧
      ∀ k, k ≠ mid →
        dictLookup k (model_heartbeat mid now st).last_activity =
          dictLookup k st.last_activity := by
  intro mid now st
  refine ⟨rfl, rfl, ?_, ?_⟩
  · exact dictLookup_dictInsert_self mid now st.last_activity
  · intro k hk
    exact dictLookup_dictInsert_ne mid k now st.last_activity hk

/-- Witness for C8 amended: the heartbeat for inactive `pangu` keeps the
active set empty and does not touch the entry of another id. -/
theorem heartbeat_inactive_frame_witness :
    (model_heartbeat "pangu" 100 initState).active_models =
      initState.active_models ∧
    dictLookup "atlas" (model_heartbeat "pangu" 100 initState).last_activity =
      dictLookup "atlas" initState.last_activity := by
  refine ⟨(heartbeat_inactive_frame "pangu" 100 initState).1, ?_⟩
  exact (heartbeat_inactive_frame "pangu" 100 initState).2.2.2 "atlas" (by decide)

/-- C5 counterexample: the orchestrator's admission has no already-active
fast path.  `tc_tracker` is already active, yet the admission calls the
Activation Gateway again (`scale_deployment(name, 1)`); `aurora` is
already active, yet its admission fails outright with insufficient VRAM
instead of returning success. -/
theorem ensure_active_counterexample :
    ("tc_tracker" ∈ activeKeys ⟨[("tc_tracker", 0)], [("tc_tracker", 0)]⟩ ∧
     (scale_up_model gwTrue "tc_tracker" 5
         ⟨[("tc_tracker", 0)], [("tc_tracker", 0)]⟩).gwCalls
       = [("earth2-tc-tracker", 1)]) ∧
    ("aurora" ∈ activeKeys ⟨[("aurora", 0)], [("aurora", 0)]⟩ ∧
     (scale_up_model gwTrue "aurora" 100
         ⟨[("aurora", 0)], [("aurora", 0)]⟩).outcome
       = ScaleUpOutcome.insufficientVram) := by
  exact ⟨⟨by decide, by decide⟩, ⟨by decide, by decide⟩⟩

theorem budget_ledger_invariant_witness :
    ("atlas" ∉ activeKeys initState) ∧
    usedVram (scale_up_model gwTrue "atlas" 5 initState).state ≤ MAX_VRAM_GB :=
  ⟨by decide,
   budget_ledger_invariant.2 gwTrue "atlas" 5 initState (by decide) (by decide)⟩

end Orchestrator

namespace Earth2Inference

theorem metaLookup_touch_ne (m k now : String) (l : List (String × MetaEntry))
    (h : k ≠ m) :
    metaLookup k (l.map (fun p =>
      if p.1 = m then (p.1, { p.2 with lastUsed := some now }) else p)) =
      metaLookup k l := by
  induction l with
  | nil => rfl
  | cons hd tl ih =>
    simp only [List.map_cons]
    by_cases hm : hd.1 = m
    · rw [if_pos hm]
      have hne : ¬ (hd.1 = k) := fun he => h (he.symm.trans hm)
      simp only [metaLookup]
      rw [if_neg hne, if_neg hne, ih]
    · rw [if_neg hm]
      simp only [metaLookup]
      by_cases hk : hd.1 = k
      · rw [if_pos hk, if_pos hk]
      · rw [if_neg hk, if_neg hk, ih]

theorem metaLookup_touch_self (m now : String) (l : List (String × MetaEntry))
    (e : MetaEntry) (h : metaLookup m l = some e) :
    metaLookup m (l.map (fun p =>
      if p.1 = m then (p.1, { p.2 with lastUsed := some now }) else p)) =
      some { e with lastUsed := some now } := by
  induction l with
  | nil => simp [metaLookup] at h
  | cons hd tl ih =>
    simp only [List.map_cons]
    by_cases hm : hd.1 = m
    · rw [metaLookup, if_pos hm] at h
      have he : hd.2 = e := Option.some_injective _ h
      rw [if_pos hm]
      simp only [metaLookup]
      rw [if_pos hm, he]
    · rw [metaLookup, if_neg hm] at h
      rw [if_neg hm]
      simp only [metaLookup]
      rw [if_neg hm]
      exact ih h

/-- C5 amended: the in-process manager does implement the already-active
fast path.  When the model is already loaded, `get_model` returns it from
cache: no load attempt, no unload, the loaded set and the run registry
untouched, the model's metadata refreshed to the new `last_used`, and
every other model's metadata left alone.  (The orchestrator's
`scale_up_model` has no such fast path; see the counterexample.) -/
theorem get_model_cached_fast_path :
    ∀ (q : Nat → Nat) (loadOk : Bool) (now m : String) (st : ServerState),
      m ∈ st.loaded_models →
      (get_model q loadOk now m st).cached = true ∧
      (get_model q loadOk now m st).ok = true ∧
      (get_model q loadOk now m st).loads = [] ∧
      (get_model q loadOk now m st).unloads = [] ∧
      (get_model q loadOk now m st).state.loaded_models = st.loaded_models ∧
      (get_model q loadOk now m st).state.active_runs = st.active_runs ∧
      (∀ e, metaLookup m st.model_metadata = some e →
        metaLookup m (get_model q loadOk now m st).state.model_metadata =
          some { e with lastUsed := some now }) ∧
      (∀ k, k ≠ m →
        metaLookup k (get_model q loadOk now m st).state.model_metadata =
          metaLookup k st.model_metadata) := by
  intro q loadOk now m st hm
  unfold get_model
  rw [if_pos hm]
  refine ⟨rfl, rfl, rfl, rfl, rfl, rfl, ?_, ?_⟩
  · intro e he
    exact metaLookup_touch_self m now st.model_metadata e he
  · intro k hk
    exact metaLookup_touch_ne m k now st.model_metadata hk

/-- Witness for C5 amended: fetching the already-loaded `fcn3` touches
nothing but its own `last_used`. -/
theorem get_model_cached_fast_path_witness :
    (get_model (fun _ => 0) true "t1" "fcn3"
        ⟨["fcn3"], [("fcn3", ⟨true, some "t0"⟩)], []⟩).loads = [] ∧
    (get_model (fun _ => 0) true "t1" "fcn3"
        ⟨["fcn3"], [("fcn3", ⟨true, some "t0"⟩)], []⟩).state.loaded_models =
      ["fcn3"] ∧
    metaLookup "fcn3" (get_model (fun _ => 0) true "t1" "fcn3"
        ⟨["fcn3"], [("fcn3", ⟨true, some "t0"⟩)], []⟩).state.model_metadata =
      some ⟨true, some "t1"⟩ := by
  have h := get_model_cached_fast_path (fun _ => 0) true "t1" "fcn3"
    ⟨["fcn3"], [("fcn3", ⟨true, some "t0"⟩)], []⟩ (by decide)
  refine ⟨h.2.2.1, h.2.2.2.2.1, ?_⟩
  exact h.2.2.2.2.2.2.1 ⟨true, some "t0"⟩ (by decide)

/-- C4 counterexample: the in-process memory-freeing path selects and
unloads `fcn3` even though `run-1` is currently executing on it with
status `running` — run state is never consulted when choosing unload
victims. -/
theorem running_run_evicted_counterexample :
    hasRunningRun "fcn3"
      ⟨["fcn3"], [("fcn3", ⟨true, some "2026-02-05T10:00:00"⟩)],
       [("run-1", ⟨"fcn3", "running"⟩)]⟩ = true ∧
    "fcn3" ∈ (ensure_memory_available (fun _ => 4000) "atlas"
      ⟨["fcn3"], [("fcn3", ⟨true, some "2026-02-05T10:00:00"⟩)],
       [("run-1", ⟨"fcn3", "running"⟩)]⟩).1 := by
  exact ⟨by decide, by decide⟩

theorem unload_model_runs (n : String) (st : ServerState)
    (runs : List (String × RunEntry)) :
    unload_model n { st with active_runs := runs } =
      { unload_model n st with active_runs := runs } := by
  unfold unload_model
  by_cases hm : n ∈ st.loaded_models
  · simp only [hm, if_pos]
  · simp only [hm, if_neg, not_false_iff]

theorem unloadLoop_victims_runs (q : Nat → Nat) (required : Nat)
    (ns : List String) (st : ServerState) (runs : List (String × RunEntry))
    (cnt : Nat) :
    (unloadLoop q required ns { st with active_runs := runs } cnt).1 =
      (unloadLoop q required ns st cnt).1 := by
  induction ns generalizing st cnt with
  | nil => rfl
  | cons n ns ih =>
    unfold unloadLoop
    by_cases hm : n ∈ st.loaded_models
    · simp only [hm, if_pos]
      rw [unload_model_runs]
      by_cases hq : required ≤ q (cnt + 1)
      · rw [if_pos hq, if_pos hq]
      · rw [if_neg hq, if_neg hq]
        exact congrArg (List.cons n) (ih (unload_model n st) (cnt + 1))
    · simp only [hm, if_neg, not_false_iff]
      exact ih st cnt

/-- C4 amended: the memory-freeing path is entirely independent of run
state — replacing the run registry by anything at all yields the same
unload victims, so a model with a `running` execution is selected exactly
as if it were idle.  (The spec's exclusion of running models is a
deliberate hardening that the source does not implement.) -/
theorem eviction_ignores_runs :
    ∀ (q : Nat → Nat) (m : String) (st : ServerState)
      (runs : List (String × RunEntry)),
      (ensure_memory_available q m { st with active_runs := runs }).1 =
        (ensure_memory_available q m st).1 := by
  intro q m st runs
  unfold ensure_memory_available
  by_cases h : q 0 < requiredMemoryMb m
  · rw [if_pos h, if_pos h]
    exact unloadLoop_victims_runs q (requiredMemoryMb m) _ st runs 0
  · rw [if_neg h, if_neg h]

theorem countP_set_incr {α : Type} (p : α → Bool) (l : List α) (i : Nat)
    (a : α) (h : i < l.length) (hv1 : p (l.get ⟨i, h⟩) = false)
    (hv2 : p a = true) : (l.set i a).countP p = l.countP p + 1 := by
  rw [List.get_eq_getElem] at hv1
  rw [List.countP_set p l i a h, hv1, hv2]
  simp

theorem countP_set_keep {α : Type} (p : α → Bool) (l : List α) (i : Nat)
    (a : α) (h : i < l.length) (hv1 : p (l.get ⟨i, h⟩) = true)
    (hv2 : p a = true) : (l.set i a).countP p = l.countP p := by
  rw [List.get_eq_getElem] at hv1
  have hone := List.boole_getElem_le_countP p l i h
  rw [hv1] at hone
  simp only [if_true] at hone
  have hset := List.countP_set p l i a h
  rw [hv1, hv2] at hset
  simp only [if_true] at hset
  omega

theorem countP_set_dec {α : Type} (p : α → Bool) (l : List α) (i : Nat)
    (a : α) (h : i < l.length) (hv2 : p a = false) :
    (l.set i a).countP p ≤ l.countP p := by
  rw [List.countP_set p l i a h, hv2]
  simp only [Bool.false_eq_true, if_false, Nat.add_zero]
  exact Nat.sub_le _ _

theorem countHeld_applyEngStep (N : Nat) (ts : List Task) (s : EngStep)
    (h : countHeld ts ≤ N) : countHeld (applyEngStep N ts s) ≤ N := by
  cases s with
  | acquire i =>
    simp only [applyEngStep]
    cases hg : ts.get? i with
    | none => exact h
    | some t =>
      dsimp only
      by_cases hc : t.phase = Phase.waiting ∧ countHeld ts < N
      · rw [if_pos hc]
        obtain ⟨hw, hlt⟩ := hc
        obtain ⟨hi, hget⟩ := List.get?_eq_some.mp hg
        have hv1 : (fun u => slotHeld u.phase) (ts.get ⟨i, hi⟩) = false := by
          rw [hget]
          show slotHeld t.phase = false
          rw [hw]
          rfl
        have hv2 : (fun u => slotHeld u.phase)
            ({ t with phase := Phase.running } : Task) = true := rfl
        unfold countHeld at hlt ⊢
        rw [countP_set_incr _ ts i _ hi hv1 hv2]
        omega
      · rw [if_neg hc]
        exact h
  | complete i =>
    simp only [applyEngStep]
    cases hg : ts.get? i with
    | none => exact h
    | some t =>
      dsimp only
      by_cases hc : t.phase = Phase.running
      · rw [if_pos hc]
        obtain ⟨hi, hget⟩ := List.get?_eq_some.mp hg
        have hv1 : (fun u => slotHeld u.phase) (ts.get ⟨i, hi⟩) = true := by
          rw [hget]
          show slotHeld t.phase = true
          rw [hc]
          rfl
        have hv2 : (fun u => slotHeld u.phase)
            ({ t with phase := Phase.finished } : Task) = true := rfl
        unfold countHeld at h ⊢
        rw [countP_set_keep _ ts i _ hi hv1 hv2]
        exact h
      · rw [if_neg hc]
        exact h
  | release i =>
    simp only [applyEngStep]
    cases hg : ts.get? i with
    | none => exact h
    | some t =>
      dsimp only
      by_cases hc : t.phase = Phase.finished
      · rw [if_pos hc]
        obtain ⟨hi, hget⟩ := List.get?_eq_some.mp hg
        have hv2 : (fun u => slotHeld u.phase)
            ({ t with phase := Phase.released } : Task) = false := rfl
        unfold countHeld at h ⊢
        exact le_trans (countP_set_dec _ ts i _ hi hv2) h
      · rw [if_neg hc]
        exact h

theorem countHeld_initTasks (ms : List String) :
    countHeld (initTasks ms) = 0 := by
  unfold countHeld initTasks
  induction ms with
  | nil => rfl
  | cons m rest ih =>
    simp only [List.map_cons, List.countP_cons, slotHeld]
    simp only [Bool.false_eq_true, if_false, Nat.add_zero]
    exact ih

theorem countRunning_le_countHeld (ts : List Task) :
    countRunning ts ≤ countHeld ts := by
  unfold countRunning countHeld
  refine List.countP_mono_left ?_
  intro t ht hp
  simp only [decide_eq_true_eq] at hp
  rw [hp]
  rfl

/-- C9: with semaphore capacity `N` and `N + k` submitted runs, every
interleaving of slot acquisitions, completions and releases keeps the
number of run records in `running` status at or below `N`, whatever
models the runs target — the bound is global, enforced by the single
`asyncio.Semaphore(max_concurrent_runs)` held from before the record
turns `running` until after it turns terminal. -/
theorem concurrency_bound :
    ∀ (N k : Nat) (models : List String) (steps : List EngStep),
      models.length = N + k →
      countRunning (steps.foldl (applyEngStep N) (initTasks models)) ≤ N := by
  intro N k models steps hlen
  have hinv : ∀ (l : List EngStep) (ts : List Task), countHeld ts ≤ N →
      countHeld (l.foldl (applyEngStep N) ts) ≤ N := by
    intro l
    induction l with
    | nil => intro ts h; exact h
    | cons s rest ih =>
      intro ts h
      exact ih (applyEngStep N ts s) (countHeld_applyEngStep N ts s h)
  have h0 : countHeld (initTasks models) = 0 := countHeld_initTasks models
  exact le_trans (countRunning_le_countHeld _)
    (hinv steps (initTasks models) (by rw [h0]; exact Nat.zero_le N))

/-- Witness for C9: three runs submitted against capacity 2; after three
acquisition attempts only two are running. -/
theorem concurrency_bound_witness :
    countRunning ([EngStep.acquire 0, EngStep.acquire 1,
        EngStep.acquire 2].foldl (applyEngStep 2)
      (initTasks ["fcn3", "atlas", "pangu"])) ≤ 2 :=
  concurrency_bound 2 1 ["fcn3", "atlas", "pangu"]
    [EngStep.acquire 0, EngStep.acquire 1, EngStep.acquire 2] (by decide)

end Earth2Inference
